import Mathlib

/-!
Shallow embedding of the order-book / strategy / backtest core of the
grok-trader repository, and proofs about the claims on its behaviour.

Conventions of the embedding:
* Python floats are modelled as rationals (`ℚ`); every numeric value that
  the relevant code paths manipulate is exactly representable, and the
  arithmetic the claims mention (`0.5 * 10`, `0.6 * 5`, ...) is exact in
  binary64, so the rational model agrees with the float computation.
* Python dicts read by the code are modelled as structures with `Option`
  fields (`none` = key absent) or as association lists in insertion order.
* Python `or`-defaulting on strings uses truthiness: `None` and `""` are
  falsy; we model that with `truthyStr`.
* `sort` in Python is stable; we model it with a stable insertion sort,
  which produces the same list as any stable sort for the same
  (non-strict) key order.
-/

namespace GrokTrader

/-- Python truthiness of an optional string: `None` and `""` are falsy. -/
def truthyStr : Option String → Bool
  | none => false
  | some s => !s.isEmpty

/-- Python `x or y or ""` on optional strings: the first truthy value,
else the empty string. -/
def firstTruthyStr (x y : Option String) : String :=
  if truthyStr x then x.getD "" else if truthyStr y then y.getD "" else ""

/-- A raw price level as carried in a book message: the `price` and `size`
entries of the level dict (absent keys modelled as `none`). -/
structure RawLevel where
  price : Option ℚ := none
  size : Option ℚ := none
  deriving Repr, DecidableEq

/-- A book message as delivered on the wire: the dict keys the code reads.
`none` models an absent key. -/
structure Msg where
  event_type : Option String := none
  asset_id : Option String := none
  market : Option String := none
  side : Option String := none
  timestamp : Option String := none
  hash : Option String := none
  bids : Option (List RawLevel) := none
  buys : Option (List RawLevel) := none
  asks : Option (List RawLevel) := none
  sells : Option (List RawLevel) := none
  deriving Repr, DecidableEq

/-- `msg.get("bids") or msg.get("buys") or []`: the first present and
non-empty (truthy) level list, else the empty list. -/
def firstTruthyLevels : Option (List RawLevel) → Option (List RawLevel) → List RawLevel
  | some (l :: ls), _ => l :: ls
  | _, some (l :: ls) => l :: ls
  | _, _ => []

/-- `_parse_side` / `_parse`: each level becomes a `(price, size)` pair;
an absent or malformed price or size defaults to `0.0`. -/
def parseLevel (l : RawLevel) : ℚ × ℚ := (l.price.getD 0, l.size.getD 0)

/-- Parse a whole side of raw levels. -/
def parseSide (levels : List RawLevel) : List (ℚ × ℚ) := levels.map parseLevel

/-- Stable insertion into a list already sorted by `le`: the new element
goes before the first element it is `le`-related to, hence after any run
of elements with an equal key that were earlier in the original list. -/
def insertStableBy {α : Type} (le : α → α → Bool) (x : α) : List α → List α
  | [] => [x]
  | y :: ys => if le x y then x :: y :: ys else y :: insertStableBy le x ys

/-- Stable insertion sort by `le`; for a total preorder `le` this returns
the same list as Python's stable `list.sort`. -/
def sortStableBy {α : Type} (le : α → α → Bool) : List α → List α
  | [] => []
  | x :: xs => insertStableBy le x (sortStableBy le xs)

/-- `bids.sort(key=lambda x: x[0], reverse=True)`: stable, highest price
first (equal prices keep their message order). -/
def sortBidsDesc (xs : List (ℚ × ℚ)) : List (ℚ × ℚ) :=
  sortStableBy (fun a b => decide (b.1 ≤ a.1)) xs

/-- `asks.sort(key=lambda x: x[0])`: stable, lowest price first. -/
def sortAsksAsc (xs : List (ℚ × ℚ)) : List (ℚ × ℚ) :=
  sortStableBy (fun a b => decide (a.1 ≤ b.1)) xs

/-- `strategy/polymarket.py` class `Book`: one instrument's price levels.
Field defaults mirror `Book.__init__`. -/
structure Book where
  asset_id : String := ""
  market : Option String := none
  side : Option String := none
  bids : List (ℚ × ℚ) := []
  asks : List (ℚ × ℚ) := []
  timestamp : Option String := none
  hash : Option String := none
  deriving Repr, DecidableEq

/-- `Book.update_from_message`: keep `market`/`timestamp`/`hash` when the
message value is absent (resp. falsy), replace both sides wholesale from
the message and re-sort. -/
def Book.update_from_message (b : Book) (msg : Msg) : Book :=
  { b with
    market := match msg.market with
      | some m => some m
      | none => b.market
    timestamp := if truthyStr msg.timestamp then msg.timestamp else b.timestamp
    hash := if truthyStr msg.hash then msg.hash else b.hash
    bids := sortBidsDesc (parseSide (firstTruthyLevels msg.bids msg.buys))
    asks := sortAsksAsc (parseSide (firstTruthyLevels msg.asks msg.sells)) }

/-- `Book.best_bid(n)`: at most the first `n` bid levels, `[]` for `n ≤ 0`. -/
def Book.best_bid (b : Book) (n : Int) : List (ℚ × ℚ) :=
  if n ≤ 0 then [] else b.bids.take n.toNat

/-- `Book.best_ask(n)`: at most the first `n` ask levels, `[]` for `n ≤ 0`. -/
def Book.best_ask (b : Book) (n : Int) : List (ℚ × ℚ) :=
  if n ≤ 0 then [] else b.asks.take n.toNat

/-- `polymarket/feed.py` class `OrderBook`. Field defaults mirror
`OrderBook.__init__`. -/
structure OrderBook where
  asset_id : String := ""
  market : Option String := none
  bids : List (ℚ × ℚ) := []
  asks : List (ℚ × ℚ) := []
  timestamp : Option String := none
  hash : Option String := none
  deriving Repr, DecidableEq

/-- `OrderBook.update_from_book_message`: overwrite `market`, `timestamp`
and `hash` with the message's values (even when absent), replace both
sides wholesale from the message and re-sort. -/
def OrderBook.update_from_book_message (ob : OrderBook) (msg : Msg) : OrderBook :=
  { ob with
    market := msg.market
    timestamp := msg.timestamp
    hash := msg.hash
    bids := sortBidsDesc (parseSide (firstTruthyLevels msg.bids msg.buys))
    asks := sortAsksAsc (parseSide (firstTruthyLevels msg.asks msg.sells)) }

/-- The insertion loop of `OrderBook._upsert_bid` for `size > 0`: update
in place at an equal price, insert before the first strictly lower price,
else append at the end. -/
def upsertBidLevels (price size : ℚ) : List (ℚ × ℚ) → List (ℚ × ℚ)
  | [] => [(price, size)]
  | (p, s) :: rest =>
    if p = price then (price, size) :: rest
    else if p < price then (price, size) :: (p, s) :: rest
    else (p, s) :: upsertBidLevels price size rest

/-- The insertion loop of `OrderBook._upsert_ask` for `size > 0`. -/
def upsertAskLevels (price size : ℚ) : List (ℚ × ℚ) → List (ℚ × ℚ)
  | [] => [(price, size)]
  | (p, s) :: rest =>
    if p = price then (price, size) :: rest
    else if p > price then (price, size) :: (p, s) :: rest
    else (p, s) :: upsertAskLevels price size rest

/-- `OrderBook._upsert_bid`: `size ≤ 0` removes the level at `price`,
otherwise insert or update keeping bids sorted descending. -/
def OrderBook.upsert_bid (ob : OrderBook) (price size : ℚ) : OrderBook :=
  if size ≤ 0 then
    { ob with bids := ob.bids.filter (fun l => decide (l.1 ≠ price)) }
  else { ob with bids := upsertBidLevels price size ob.bids }

/-- `OrderBook._upsert_ask`: `size ≤ 0` removes the level at `price`,
otherwise insert or update keeping asks sorted ascending. -/
def OrderBook.upsert_ask (ob : OrderBook) (price size : ℚ) : OrderBook :=
  if size ≤ 0 then
    { ob with asks := ob.asks.filter (fun l => decide (l.1 ≠ price)) }
  else { ob with asks := upsertAskLevels price size ob.asks }

/-- `OrderBook.best_bid(n)`. -/
def OrderBook.best_bid (ob : OrderBook) (n : Int) : List (ℚ × ℚ) :=
  if n ≤ 0 then [] else ob.bids.take n.toNat

/-- `OrderBook.best_ask(n)`. -/
def OrderBook.best_ask (ob : OrderBook) (n : Int) : List (ℚ × ℚ) :=
  if n ≤ 0 then [] else ob.asks.take n.toNat

/-- Strictly descending by price (hence no duplicate prices). -/
def strictDescByPrice (xs : List (ℚ × ℚ)) : Prop :=
  List.Pairwise (fun a b : ℚ × ℚ => b.1 < a.1) xs

/-- Strictly ascending by price (hence no duplicate prices). -/
def strictAscByPrice (xs : List (ℚ × ℚ)) : Prop :=
  List.Pairwise (fun a b : ℚ × ℚ => a.1 < b.1) xs

/-- Every retained level has positive size. -/
def allPosSize (xs : List (ℚ × ℚ)) : Prop := ∀ l ∈ xs, (0 : ℚ) < l.2

/-- The spec's book invariant for one `OrderBook`. -/
def OrderBook.Inv (ob : OrderBook) : Prop :=
  strictDescByPrice ob.bids ∧ strictAscByPrice ob.asks ∧
    allPosSize ob.bids ∧ allPosSize ob.asks

/-- One per-level upsert, on either side of the book. -/
inductive UpsertOp where
  | bid (price size : ℚ)
  | ask (price size : ℚ)
  deriving Repr, DecidableEq

/-- Apply a sequence of per-level upserts to an order book. -/
def OrderBook.applyUpserts (ob : OrderBook) : List UpsertOp → OrderBook
  | [] => ob
  | .bid p s :: ops => (ob.upsert_bid p s).applyUpserts ops
  | .ask p s :: ops => (ob.upsert_ask p s).applyUpserts ops

/-- The decision parsed from the model's structured output (`Decision`
pydantic model in `strategy/brain.py`): validators guarantee
`action ∈ {buy, sell, hold}`, `outcome ∈ {yes, no}`, `0 ≤ price ≤ 1`,
`0 ≤ size` after lower-casing, but the theorems below do not rely on them
unless stated. -/
structure ParsedDecision where
  action : String
  outcome : String
  price : ℚ
  size : ℚ
  deriving Repr, DecidableEq

/-- `IOCDecision` from `strategy/brain.py` (the `response` field carries
the raw model response and is not modelled). -/
structure IOCDecision where
  action : String
  outcome : String
  price : ℚ
  size : ℚ
  deriving Repr, DecidableEq

/-- The deterministic tail of `produce_trading_decision` (lines 205-211):
lower-case the parsed fields, return a zero-size hold for `hold`, and
otherwise clamp the size to `min(parsed.size, max_size, max_position)`. -/
def produce_trading_decision (max_size max_position : ℚ)
    (parsed : ParsedDecision) : IOCDecision :=
  let action := parsed.action.toLower
  let outcome := parsed.outcome.toLower
  if action = "hold" then ⟨"hold", outcome, 0, 0⟩
  else ⟨action, outcome, parsed.price, min parsed.size (min max_size max_position)⟩

/-- The order forwarded to `place_order`. -/
structure Order where
  token_id : String
  side : String
  price : ℚ
  size : ℚ
  deriving Repr, DecidableEq

/-- The order-submission step of `Strategy.on_new_book`
(`strategy/autotrader.py` lines 105-129): submit only when a client is
configured, the action is not `hold` and the size is positive; a sell
with no tracked positions is skipped. Returns the order handed to the
execution collaborator, if any. The positions list element type is
opaque (`π`): only its emptiness is inspected here. -/
def on_new_book_order {π : Type} (client : Bool) (yes_asset no_asset : String)
    (positions : List π) (decision : IOCDecision) : Option Order :=
  if client ∧ decision.action ≠ "hold" ∧ 0 < decision.size then
    if decision.action = "sell" ∧ positions.isEmpty then none
    else
      some ⟨if decision.outcome = "yes" then yes_asset else no_asset,
        decision.action, decision.price, decision.size⟩
  else none

/-- A signal item; the sliding-window code reads only `tweet.get("tweet_id")`. -/
structure Tweet where
  tweet_id : Option Int
  deriving Repr, DecidableEq

/-- The sliding-window state of `Strategy`: `tweets = deque(maxlen=10)`
(front = oldest) and the `tweet_ids` set, modelled as a duplicate-free
list in insertion order. -/
structure SignalWindow where
  tweets : List Tweet := []
  tweet_ids : List (Option Int) := []
  deriving Repr, DecidableEq

/-- `deque(maxlen=10).append(t)`: append on the right and silently drop
from the left whatever exceeds the bound. -/
def dequeAppend10 (q : List Tweet) (t : Tweet) : List Tweet :=
  let q1 := q ++ [t]
  q1.drop (q1.length - 10)

/-- The `while len(self.tweet_ids) > 10 or len(self.tweets) > 10` eviction
loop: pop the leftmost tweet and discard its id from the set. (Python
would raise from `popleft` on an empty deque; on every state reachable
from the empty window the loop runs at most once on a non-empty deque,
so the `[]` equation is never exercised.) -/
def evictOldest : List Tweet → List (Option Int) → List Tweet × List (Option Int)
  | [], ids => ([], ids)
  | t :: rest, ids =>
    if 10 < ids.length ∨ 10 < (t :: rest).length then
      evictOldest rest (ids.filter (fun x => decide (x ≠ t.tweet_id)))
    else (t :: rest, ids)

/-- `Strategy.on_new_post` (`strategy/autotrader.py` lines 45-55): drop a
repeated id, otherwise add the id to the set, append the tweet to the
bounded deque, and run the eviction loop. -/
def on_new_post (s : SignalWindow) (tw : Tweet) : SignalWindow :=
  if tw.tweet_id ∈ s.tweet_ids then s
  else
    let ids := s.tweet_ids ++ [tw.tweet_id]
    let tweets := dequeAppend10 s.tweets tw
    let res := evictOldest tweets ids
    ⟨res.1, res.2⟩

/-- Association-list `get` (first binding wins; Python dicts have unique
keys, which insertion via `alSet` preserves). -/
def alGet {κ ν : Type} [DecidableEq κ] (k : κ) : List (κ × ν) → Option ν
  | [] => none
  | (k1, v) :: rest => if k1 = k then some v else alGet k rest

/-- Association-list assignment `d[k] = v`: replace the existing binding
or append a new one, keeping dict insertion order. -/
def alSet {κ ν : Type} [DecidableEq κ] (k : κ) (v : ν) : List (κ × ν) → List (κ × ν)
  | [] => [(k, v)]
  | (k1, v1) :: rest => if k1 = k then (k, v) :: rest else (k1, v1) :: alSet k v rest

/-- `TradeLogEntry` from `strategy/backtester.py`. -/
structure TradeLogEntry where
  side : String
  action : String
  size : ℚ
  price : ℚ
  notional : ℚ
  timestamp : Option Int := none
  deriving Repr, DecidableEq

/-- `Simulator` state from `strategy/backtester.py`; defaults mirror the
dataclass defaults. -/
structure Simulator where
  cash : ℚ := 0
  pos_yes : ℚ := 0
  pos_no : ℚ := 0
  last_price_yes : Option ℚ := none
  last_price_no : Option ℚ := none
  trades : List TradeLogEntry := []
  deriving Repr, DecidableEq

/-- `Simulator.mark`: mark-to-market equity (`x or 0.0` on a float is
`getD 0`, since `0.0 or 0` is `0`). -/
def Simulator.mark (s : Simulator) : ℚ :=
  s.cash + s.last_price_yes.getD 0 * s.pos_yes + s.last_price_no.getD 0 * s.pos_no

/-- The unrealized-PnL line of `Simulator.report`. -/
def Simulator.unrealized (s : Simulator) : ℚ :=
  s.last_price_yes.getD 0 * s.pos_yes + s.last_price_no.getD 0 * s.pos_no

/-- The total-PnL line of `Simulator.report`: realized (cash) plus
unrealized. -/
def Simulator.totalPnl (s : Simulator) : ℚ :=
  s.cash + s.unrealized

/-- `Simulator._top_price`: first bid's price, else first ask's price,
else `None`. -/
def top_price : Option Book → Option ℚ
  | none => none
  | some b =>
    match b.bids with
    | (p, _) :: _ => some p
    | [] =>
      match b.asks with
      | (p, _) :: _ => some p
      | [] => none

/-- `Simulator._top_ts`: parse the yes book's timestamp (parse failure
gives `None`), then let the no book's timestamp override it (parse
failure keeps the previous value). -/
def top_ts (yes_book no_book : Option Book) : Option Int :=
  let ts : Option Int :=
    match yes_book with
    | some b => if truthyStr b.timestamp then (b.timestamp.getD "").toInt? else none
    | none => none
  match no_book with
  | some b =>
    if truthyStr b.timestamp then
      match (b.timestamp.getD "").toInt? with
      | some v => some v
      | none => ts
    else ts
  | none => ts

/-- One trade intent dict passed to `Simulator.apply_actions`; `none`
models an absent key. -/
structure ActionIntent where
  side : Option String := none
  action : Option String := none
  direction : Option String := none
  size : Option ℚ := none
  deriving Repr, DecidableEq

/-- The parsed side of an intent: `(action.get("side") or "").lower()`. -/
def intentSide (a : ActionIntent) : String := (a.side.getD "").toLower

/-- The parsed direction of an intent:
`(action.get("action") or action.get("direction") or "").lower()`. -/
def intentDirection (a : ActionIntent) : String :=
  (firstTruthyStr a.action a.direction).toLower

/-- The parsed size of an intent: `float(action.get("size") or 0)`
(`some 0` is falsy and also maps to `0`). -/
def intentSize (a : ActionIntent) : ℚ := a.size.getD 0

/-- An intent the `apply_actions` loop skips: invalid side, invalid
direction, non-positive size, or no resolvable top price for its side. -/
def intentInvalidOrPriceless (yes_book no_book : Option Book) (a : ActionIntent) : Prop :=
  (intentSide a ≠ "yes" ∧ intentSide a ≠ "no") ∨
  (intentDirection a ≠ "buy" ∧ intentDirection a ≠ "sell") ∨
  intentSize a ≤ 0 ∨
  (if intentSide a = "yes" then top_price yes_book else top_price no_book) = none

/-- The body of the `for action in actions` loop of
`Simulator.apply_actions`: skip invalid intents and intents whose side
has no resolvable price, otherwise fill at the top price, move cash by
the notional, and append a ledger entry. -/
def applyOneAction (price_yes price_no : Option ℚ) (timestamp : Option Int)
    (sim : Simulator) (a : ActionIntent) : Simulator :=
  let side := intentSide a
  let direction := intentDirection a
  let size := intentSize a
  if (side ≠ "yes" ∧ side ≠ "no") ∨ (direction ≠ "buy" ∧ direction ≠ "sell") ∨ size ≤ 0 then
    sim
  else
    match (if side = "yes" then price_yes else price_no) with
    | none => sim
    | some px =>
      let notional := px * size
      let sim1 :=
        if direction = "buy" then
          if side = "yes" then
            { sim with pos_yes := sim.pos_yes + size, cash := sim.cash - notional }
          else
            { sim with pos_no := sim.pos_no + size, cash := sim.cash - notional }
        else
          if side = "yes" then
            { sim with pos_yes := sim.pos_yes - size, cash := sim.cash + notional }
          else
            { sim with pos_no := sim.pos_no - size, cash := sim.cash + notional }
      { sim1 with trades := sim1.trades ++ [⟨side, direction, size, px, notional, timestamp⟩] }

/-- `Simulator.apply_actions`: resolve the top prices once, run every
intent through the loop body, then record the last seen prices. -/
def Simulator.apply_actions (sim : Simulator) (actions : List ActionIntent)
    (yes_book no_book : Option Book) : Simulator :=
  let price_yes := top_price yes_book
  let price_no := top_price no_book
  let timestamp := top_ts yes_book no_book
  let sim1 := actions.foldl (applyOneAction price_yes price_no timestamp) sim
  let sim2 :=
    match price_yes with
    | some p => { sim1 with last_price_yes := some p }
    | none => sim1
  match price_no with
  | some p => { sim2 with last_price_no := some p }
  | none => sim2

/-- The mark-to-market replay state of `Simulator._max_drawdown`: the
local variables `last_yes`, `last_no`, `cash`, `pos_yes`, `pos_no`. -/
structure MarkState where
  last_yes : Option ℚ
  last_no : Option ℚ
  cash : ℚ
  pos_yes : ℚ
  pos_no : ℚ
  deriving Repr, DecidableEq

/-- The per-trade position/cash/last-price update inside the
`for tr in self.trades` loop of `_max_drawdown` (a non-`yes` side is
treated as `no`, a non-`buy` action as `sell`, exactly as the `else`
branches do). -/
def mdTrade (m : MarkState) (tr : TradeLogEntry) : MarkState :=
  if tr.side = "yes" then
    if tr.action = "buy" then
      { m with
          pos_yes := m.pos_yes + tr.size, cash := m.cash - tr.notional,
          last_yes := some tr.price }
    else
      { m with
          pos_yes := m.pos_yes - tr.size, cash := m.cash + tr.notional,
          last_yes := some tr.price }
  else
    if tr.action = "buy" then
      { m with
          pos_no := m.pos_no + tr.size, cash := m.cash - tr.notional,
          last_no := some tr.price }
    else
      { m with
          pos_no := m.pos_no - tr.size, cash := m.cash + tr.notional,
          last_no := some tr.price }

/-- The `equity = cash + (last_yes or 0.0) * pos_yes + (last_no or 0.0) * pos_no`
line of `_max_drawdown`. -/
def mdEquity (m : MarkState) : ℚ :=
  m.cash + m.last_yes.getD 0 * m.pos_yes + m.last_no.getD 0 * m.pos_no

/-- One iteration of the `_max_drawdown` loop on the full local state
`(mark state, peak, max_dd)`. -/
def mdStep : MarkState × ℚ × ℚ → TradeLogEntry → MarkState × ℚ × ℚ :=
  fun acc tr =>
    let m := mdTrade acc.1 tr
    let equity := mdEquity m
    let peak := max acc.2.1 equity
    (m, peak, max acc.2.2 (peak - equity))

/-- `Simulator._max_drawdown`: replay the ledger from zero cash and
positions (with the simulator's final last prices as the initial marks),
tracking the running peak (initially `0.0`) and the maximum deficit below
it. -/
def Simulator.max_drawdown (s : Simulator) : ℚ :=
  (s.trades.foldl mdStep (⟨s.last_price_yes, s.last_price_no, 0, 0, 0⟩, 0, 0)).2.2

/-- The `equity` values computed by the `_max_drawdown` loop, in order
(the loop's `equity_curve` list). -/
def equityCurveFrom (m : MarkState) : List TradeLogEntry → List ℚ
  | [] => []
  | tr :: trs => mdEquity (mdTrade m tr) :: equityCurveFrom (mdTrade m tr) trs

/-- The recomputed mark-to-market equity curve of a simulator's ledger. -/
def Simulator.equityCurve (s : Simulator) : List ℚ :=
  equityCurveFrom ⟨s.last_price_yes, s.last_price_no, 0, 0, 0⟩ s.trades

/-- The peak/deficit recursion of `_max_drawdown`, abstracted over the
equity values it consumes. -/
def ddFold (p d : ℚ) : List ℚ → ℚ
  | [] => d
  | e :: es => ddFold (max p e) (max d (max p e - e)) es

/-- A ledger entry as `Simulator.apply_actions` writes it: `notional` is
exactly `price * size`. -/
def TradeLogEntry.consistent (tr : TradeLogEntry) : Prop :=
  tr.notional = tr.price * tr.size

/-- A historical trade record as read by `trades_to_book_messages`
(`strategy/backtester.py` lines 254-279); `none` models an absent key. -/
structure Trade where
  asset : Option String := none
  token : Option String := none
  slug : Option String := none
  market : Option String := none
  outcome : Option String := none
  outcomeIndex : Option Int := none
  price : Option ℚ := none
  size : Option ℚ := none
  timestamp : Option Int := none
  deriving Repr, DecidableEq

/-- Build the synthetic message for one valid trade: a single-level
bid = ask = trade-price snapshot. An integer wire timestamp is carried as
its decimal string (the book stores it opaquely and `_top_ts` re-parses
it, so the observable behaviour is unchanged for the non-zero timestamps
these records carry). -/
def tradeToMsg (t : Trade) : Msg :=
  let side_label :=
    if truthyStr t.outcome then t.outcome.getD ""
    else if t.outcomeIndex = some 0 then "yes" else "no"
  { event_type := some "book"
    asset_id := some (firstTruthyStr t.asset t.token)
    market := some (firstTruthyStr t.slug t.market)
    side := some side_label.toLower
    timestamp := t.timestamp.map toString
    bids := some [⟨t.price, t.size⟩]
    asks := some [⟨t.price, t.size⟩] }

/-- `trades_to_book_messages`: stable-sort the trades by
`t.get("timestamp", 0)`, drop trades with a falsy asset id or
non-positive price or size, and map the rest to synthetic book
messages. -/
def trades_to_book_messages (trades : List Trade) : List Msg :=
  let trades_sorted :=
    sortStableBy (fun a b => decide (a.timestamp.getD 0 ≤ b.timestamp.getD 0)) trades
  (trades_sorted.filter (fun t =>
      truthyStr (some (firstTruthyStr t.asset t.token)) &&
        decide (0 < t.price.getD 0) && decide (0 < t.size.getD 0))).map tradeToMsg

/-- The mutable state threaded through `replay_history`, together with
the replayed strategy's internal state `σ`. -/
structure ReplayState (σ : Type) where
  books : List (String × Book)
  market_books : List (String × List (String × Book))
  sim : Simulator
  strat : σ

/-- One iteration of the `for msg in messages` loop of `replay_history`.
The strategy is a state-passing function returning `none` to model a
raised exception (on which the loop `continue`s without applying
actions). Python mutates one shared `Book` object held by both maps; the
model writes the updated book to both maps, which agrees with the
aliasing whenever the message carries a non-empty `side` (as every
synthesized message does). -/
def replay_step {σ : Type}
    (strat : σ → Option Book → Option Book → σ × Option (List ActionIntent))
    (st : ReplayState σ) (msg : Msg) : ReplayState σ :=
  if msg.event_type ≠ some "book" then st
  else
    match msg.asset_id with
    | none => st
    | some aid =>
      if aid.isEmpty then st
      else
        let market_slug := firstTruthyStr msg.market none
        let side := firstTruthyStr msg.side none
        let b0 :=
          match alGet aid st.books with
          | some b => b
          | none => { asset_id := aid, market := some market_slug, side := some side }
        let b1 := b0.update_from_message msg
        let books := alSet aid b1 st.books
        let entry0 := (alGet market_slug st.market_books).getD []
        let entry := if side.isEmpty then entry0 else alSet side b1 entry0
        let market_books := alSet market_slug entry st.market_books
        let yes_book := alGet "yes" entry
        let no_book := alGet "no" entry
        let stepRes := strat st.strat yes_book no_book
        match stepRes.2 with
        | none => { books, market_books, sim := st.sim, strat := stepRes.1 }
        | some actions =>
          { books, market_books, strat := stepRes.1
            sim := st.sim.apply_actions actions yes_book no_book }

/-- `replay_history`: fold the loop body over the message list starting
from empty maps and a fresh `Simulator`, and return the simulator whose
report is printed. -/
def replay_history {σ : Type}
    (strat : σ → Option Book → Option Book → σ × Option (List ActionIntent))
    (s0 : σ) (msgs : List Msg) : Simulator :=
  (msgs.foldl (replay_step strat) ⟨[], [], {}, s0⟩).sim

/-- The order-book map of a `PolymarketFeed` (`polymarket/feed.py`). -/
structure FeedBooks where
  orderbooks : List (String × OrderBook) := []
  deriving Repr, DecidableEq

/-- `PolymarketFeed._handle_book_message`: drop non-`book` events and
messages without a truthy asset id; under the mutex, get or create the
`OrderBook` and update it from the message; after releasing the mutex,
invoke `self.on_order_book` (the strategy callback). The callback may
fail (`Except.error`), and the handler wraps it in NO try/except: a
callback error is returned to the caller (`_on_message`, the reader
loop). -/
def feed_handle_book_message {ε : Type} (st : FeedBooks)
    (callback : String → OrderBook → Except ε Unit) (msg : Msg) :
    Except ε FeedBooks :=
  if msg.event_type ≠ some "book" then .ok st
  else
    match msg.asset_id with
    | none => .ok st
    | some aid =>
      if aid.isEmpty then .ok st
      else
        let ob0 :=
          match alGet aid st.orderbooks with
          | some ob => ob
          | none => { asset_id := aid, market := msg.market }
        let ob1 := ob0.update_from_book_message msg
        let st1 : FeedBooks := ⟨alSet aid ob1 st.orderbooks⟩
        match callback aid ob1 with
        | .ok _ => .ok st1
        | .error e => .error e

/-- The book-side state of a `Polymarket` object
(`strategy/polymarket.py`): `books`, `market_books`, `token_lookup` and
the configured `market_slug`. A `None` map key (possible when
`market_slug` is unset) is conflated with `""`; neither ever equals the
`"yes"`/`"no"` keys the handler reads back. -/
structure PMBooks where
  books : List (String × Book) := []
  market_books : List (String × List (String × Book)) := []
  token_lookup : List (String × String × String) := []
  market_slug : Option String := none
  deriving Repr, DecidableEq

/-- `Polymarket._handle_book`: drop non-`book` events and messages
without a truthy asset id; under the mutex, get or create the `Book`,
update it from the message, register it under its market and side and
read back the yes/no pair; after releasing the mutex, invoke the
strategy inside `try ... except Exception: return` — a callback error is
swallowed and the handler returns the (already mutated) state
normally. -/
def pm_handle_book {ε : Type} (st : PMBooks)
    (strat : Option Book → Option Book → Except ε Unit) (msg : Msg) :
    Except ε PMBooks :=
  if msg.event_type ≠ some "book" then .ok st
  else
    match msg.asset_id with
    | none => .ok st
    | some aid =>
      if aid.isEmpty then .ok st
      else
        let b0 :=
          match alGet aid st.books with
          | some b => b
          | none =>
            let pair := (alGet aid st.token_lookup).getD (st.market_slug.getD "", "")
            { asset_id := aid, market := some pair.1, side := some pair.2 }
        let b1 := b0.update_from_message msg
        let books := alSet aid b1 st.books
        let mb1 :=
          match alGet aid st.books with
          | some _ => st.market_books
          | none =>
            let pair := (alGet aid st.token_lookup).getD (st.market_slug.getD "", "")
            alSet pair.1 (alSet pair.2 b1 ((alGet pair.1 st.market_books).getD []))
              st.market_books
        let pair2 :=
          (alGet aid st.token_lookup).getD (b1.market.getD "", b1.side.getD "")
        let entry := alSet pair2.2 b1 ((alGet pair2.1 mb1).getD [])
        let mb2 := alSet pair2.1 entry mb1
        let yes_book := alGet "yes" entry
        let no_book := alGet "no" entry
        let st1 : PMBooks := { st with books := books, market_books := mb2 }
        match strat yes_book no_book with
        | .ok _ => .ok st1
        | .error _ => .ok st1

/-- The subscription-topology slice of `PolymarketFeed` state:
`asset_ids`, `market_tokens` (slug to side-token mapping, in insertion
order) and `token_lookup` (token to slug and side). -/
structure FeedTopology where
  asset_ids : List String := []
  market_tokens : List (String × List (String × String)) := []
  token_lookup : List (String × String × String) := []
  deriving Repr, DecidableEq

/-- `PolymarketFeed.subscribe_event`, parameterised by the mapping the
metadata collaborator `fetch_event_market_clobs` returns for each event
slug: replace `market_tokens`, rebuild `token_lookup` from scratch, and
`subscribe` to all token ids. -/
def subscribe_event (fetchFn : String → List (String × List (String × String)))
    (event_slug : String) : FeedTopology :=
  let mt := fetchFn event_slug
  { market_tokens := mt
    token_lookup := mt.flatMap (fun sl => sl.2.map (fun sd => (sd.2, sl.1, sd.1)))
    asset_ids := mt.flatMap (fun sl => sl.2.map (fun sd => sd.2)) }

/-- The errors `PolymarketFeed.subscribe_market` can raise. -/
inductive SubscribeError where
  | noEventData
  | slugNotFound (slug : String)
  deriving Repr, DecidableEq

/-- The narrowed topology built by the tail of `subscribe_market` once
the requested market's side-token mapping is known. -/
def narrowTo (market_slug : String) (sides : List (String × String)) : FeedTopology :=
  { market_tokens := [(market_slug, sides)]
    token_lookup := sides.map (fun sd => (sd.2, market_slug, sd.1))
    asset_ids := sides.map (fun sd => sd.2) }

/-- `PolymarketFeed.subscribe_market`: fetch the event topology when none
is loaded (`ValueError` without an event slug), refetch when the slug is
absent and an event slug was given, fail with a `KeyError` naming the
slug when it is still absent, and otherwise narrow the topology to
exactly the requested market. -/
def subscribe_market (fetchFn : String → List (String × List (String × String)))
    (st : FeedTopology) (market_slug : String) (event_slug : Option String) :
    Except SubscribeError FeedTopology :=
  let first :=
    if st.market_tokens.isEmpty then
      match event_slug with
      | none => none
      | some ev => some (subscribe_event fetchFn ev)
    else some st
  match first with
  | none => .error .noEventData
  | some st1 =>
    let st2 :=
      if (alGet market_slug st1.market_tokens).isNone then
        match event_slug with
        | some ev => subscribe_event fetchFn ev
        | none => st1
      else st1
    match alGet market_slug st2.market_tokens with
    | none => .error (.slugNotFound market_slug)
    | some sides => .ok (narrowTo market_slug sides)

/-! Concrete fixtures used by the counterexamples and witnesses below. -/

/-- First message of the spec's end-to-end book scenario:
`bids=[{price:"0.40",size:"10"}]`, `asks=[{price:"0.42",size:"5"}]`. -/
def c1msg1 : Msg :=
  { event_type := some "book", asset_id := some "A"
    bids := some [⟨some (2/5), some 10⟩], asks := some [⟨some (21/50), some 5⟩] }

/-- Second message of the scenario: `bids=[{price:"0.40",size:"0"}]`. -/
def c1msg2 : Msg :=
  { event_type := some "book", asset_id := some "A"
    bids := some [⟨some (2/5), some 0⟩] }

/-- The book for instrument "A" after the two-message scenario, on the
full-side replace path. -/
def c1book : OrderBook :=
  (({ asset_id := "A" } : OrderBook).update_from_book_message c1msg1).update_from_book_message
    c1msg2

/-- A fixture book with one bid and one ask level, for the upsert
witness. -/
def c1bookW : OrderBook :=
  { asset_id := "A", bids := [(1/2, 3)], asks := [(3/5, 4)] }

/-- A replace message carrying a duplicated price, one occurrence with
size `0`. -/
def c2msg : Msg :=
  { event_type := some "book", asset_id := some "A"
    bids := some [⟨some (1/2), some 0⟩, ⟨some (1/2), some 2⟩] }

/-- The book produced by applying `c2msg` to an empty book. -/
def c2book : OrderBook :=
  ({ asset_id := "A" } : OrderBook).update_from_book_message c2msg

/-- Eleven posts with distinct ids 1..11. -/
def c4posts : List Tweet := (List.range 11).map (fun k => ⟨some ((k : Int) + 1)⟩)

/-- The window state after feeding the eleven distinct posts. -/
def c4final : SignalWindow := c4posts.foldl on_new_post {}

/-- The first synthetic trade of the spec's replay scenario. -/
def c5trade1 : Trade :=
  { asset := some "Y", outcomeIndex := some 0, price := some (1/2), size := some 10
    timestamp := some 1 }

/-- The second synthetic trade of the spec's replay scenario. -/
def c5trade2 : Trade :=
  { asset := some "Y", outcomeIndex := some 0, price := some (3/5), size := some 5
    timestamp := some 2 }

/-- The scenario strategy: buy 10 yes on the first callback, sell 5 yes
on the second (state = number of callbacks seen). -/
def c5strategy : ℕ → Option Book → Option Book → ℕ × Option (List ActionIntent) :=
  fun n _ _ =>
    (n + 1,
      some
        (if n = 0 then [{ side := some "yes", action := some "buy", size := some 10 }]
         else if n = 1 then [{ side := some "yes", action := some "sell", size := some 5 }]
         else []))

/-- The simulator state after replaying the two synthetic trades through
the scenario strategy. -/
def c5sim : Simulator :=
  replay_history c5strategy 0 (trades_to_book_messages [c5trade1, c5trade2])

/-- A simulator holding the ledger of the replay scenario (used as the
drawdown witness: its recomputed equity curve is `[0, 1]`). -/
def c6simW : Simulator :=
  { cash := -2, pos_yes := 5, last_price_yes := some (3/5)
    trades := [⟨"yes", "buy", 10, 1/2, 5, some 1⟩, ⟨"yes", "sell", 5, 3/5, 3, some 2⟩] }

/-- A book message for instrument "A" used by the callback-handling
theorems. -/
def c7msg : Msg :=
  { event_type := some "book", asset_id := some "A"
    bids := some [⟨some (2/5), some 10⟩] }

/-- A strategy callback that always raises. -/
def boomCallback : String → OrderBook → Except String Unit := fun _ _ => .error "boom"

/-- A two-argument strategy (yes book, no book) that always raises. -/
def boomStrategy : Option Book → Option Book → Except String Unit := fun _ _ => .error "boom"

/-- A metadata fetch returning one market with yes/no tokens, for every
event slug. -/
def c8fetch : String → List (String × List (String × String)) :=
  fun _ => [("m1", [("yes", "T1"), ("no", "T2")])]

/-- The side-token mapping of market `m1` in `c8fetch`. -/
def c8sides : List (String × String) := [("yes", "T1"), ("no", "T2")]

/-- An intent with an unknown side (skipped by `apply_actions`). -/
def c9intent : ActionIntent := { side := some "bogus", action := some "buy", size := some 3 }

/-- Simulator and books for the frame-effect witness. -/
def c9sim : Simulator := { cash := 7, pos_yes := 2, trades := [⟨"yes", "buy", 2, 1/2, 1, none⟩] }

/-- A yes book with a top bid at 0.45. -/
def c9yesBook : Book := { asset_id := "Y", bids := [(9/20, 3)] }

/-- A book and message pair for the metadata frame witness: the message
has no truthy timestamp (absent) and no truthy hash (empty string). -/
def c10msg : Msg :=
  { event_type := some "book", asset_id := some "A", hash := some ""
    bids := some [⟨some (2/5), some 10⟩] }

/-- A previously populated strategy-side book. -/
def c10book : Book := { asset_id := "A", timestamp := some "171", hash := some "h0" }

/-- A previously populated feed-side book. -/
def c10orderbook : OrderBook := { asset_id := "A", timestamp := some "171", hash := some "h0" }

/-- A message with a falsy (absent) timestamp but a truthy hash. -/
def c10msgB : Msg :=
  { event_type := some "book", asset_id := some "A", hash := some "H1"
    bids := some [⟨some (2/5), some 10⟩] }

/-- A message with a truthy timestamp but a falsy (empty) hash. -/
def c10msgC : Msg :=
  { event_type := some "book", asset_id := some "A", timestamp := some "999", hash := some ""
    bids := some [⟨some (2/5), some 10⟩] }

/-! Helper lemmas about the stable sort and the upsert loops. -/

theorem mem_insertStableBy {α : Type} (le : α → α → Bool) (x z : α) (l : List α) :
    z ∈ insertStableBy le x l ↔ z = x ∨ z ∈ l := by
  induction l with
  | nil => simp [insertStableBy]
  | cons y ys ih =>
    simp only [insertStableBy]
    by_cases h : le x y
    · rw [if_pos h]
      simp [List.mem_cons]
    · rw [if_neg h]
      simp only [List.mem_cons, ih]
      tauto

theorem pairwise_insertStableBy {α : Type} (le : α → α → Bool)
    (htrans : ∀ a b c, le a b = true → le b c = true → le a c = true)
    (htot : ∀ a b, le a b = true ∨ le b a = true)
    (x : α) (l : List α) (h : List.Pairwise (fun a b => le a b = true) l) :
    List.Pairwise (fun a b => le a b = true) (insertStableBy le x l) := by
  induction l with
  | nil => simp [insertStableBy]
  | cons y ys ih =>
    rcases List.pairwise_cons.mp h with ⟨hy, hys⟩
    simp only [insertStableBy]
    by_cases hxy : le x y
    · rw [if_pos hxy]
      refine List.Pairwise.cons ?_ h
      intro z hz
      rcases List.mem_cons.mp hz with rfl | hz
      · exact hxy
      · exact htrans x y z hxy (hy z hz)
    · have hyx : le y x = true := (htot x y).resolve_left hxy
      rw [if_neg hxy]
      refine List.Pairwise.cons ?_ (ih hys)
      intro z hz
      rcases (mem_insertStableBy le x z ys).mp hz with rfl | hz
      · exact hyx
      · exact hy z hz

theorem pairwise_sortStableBy {α : Type} (le : α → α → Bool)
    (htrans : ∀ a b c, le a b = true → le b c = true → le a c = true)
    (htot : ∀ a b, le a b = true ∨ le b a = true) (l : List α) :
    List.Pairwise (fun a b => le a b = true) (sortStableBy le l) := by
  induction l with
  | nil => simp [sortStableBy]
  | cons x xs ih => exact pairwise_insertStableBy le htrans htot x (sortStableBy le xs) ih

theorem sortBidsDesc_sorted (xs : List (ℚ × ℚ)) :
    List.Pairwise (fun a b : ℚ × ℚ => b.1 ≤ a.1) (sortBidsDesc xs) := by
  have h := pairwise_sortStableBy (fun a b : ℚ × ℚ => decide (b.1 ≤ a.1))
    (fun a b c hab hbc => by
      simp only [decide_eq_true_eq] at hab hbc ⊢
      exact le_trans hbc hab)
    (fun a b => by
      simp only [decide_eq_true_eq]
      exact le_total b.1 a.1) xs
  exact h.imp (fun hz => by simpa using hz)

theorem sortAsksAsc_sorted (xs : List (ℚ × ℚ)) :
    List.Pairwise (fun a b : ℚ × ℚ => a.1 ≤ b.1) (sortAsksAsc xs) := by
  have h := pairwise_sortStableBy (fun a b : ℚ × ℚ => decide (a.1 ≤ b.1))
    (fun a b c hab hbc => by
      simp only [decide_eq_true_eq] at hab hbc ⊢
      exact le_trans hab hbc)
    (fun a b => by
      simp only [decide_eq_true_eq]
      exact le_total a.1 b.1) xs
  exact h.imp (fun hz => by simpa using hz)

theorem mem_upsertBidLevels (price size : ℚ) (l : List (ℚ × ℚ)) (z : ℚ × ℚ)
    (hz : z ∈ upsertBidLevels price size l) : z = (price, size) ∨ z ∈ l := by
  induction l with
  | nil => simpa [upsertBidLevels] using hz
  | cons y ys ih =>
    obtain ⟨q, t⟩ := y
    by_cases h1 : q = price
    · simp only [upsertBidLevels, h1, if_true] at hz
      rcases List.mem_cons.mp hz with rfl | hz
      · exact .inl rfl
      · exact .inr (List.mem_cons_of_mem _ hz)
    · by_cases h2 : q < price
      · simp only [upsertBidLevels, h1, h2, if_true, if_false] at hz
        rcases List.mem_cons.mp hz with rfl | hz
        · exact .inl rfl
        · exact .inr hz
      · simp only [upsertBidLevels, h1, h2, if_false] at hz
        rcases List.mem_cons.mp hz with rfl | hz
        · exact .inr (List.mem_cons_self _ _)
        · rcases ih hz with h | h
          · exact .inl h
          · exact .inr (List.mem_cons_of_mem _ h)

theorem mem_upsertAskLevels (price size : ℚ) (l : List (ℚ × ℚ)) (z : ℚ × ℚ)
    (hz : z ∈ upsertAskLevels price size l) : z = (price, size) ∨ z ∈ l := by
  induction l with
  | nil => simpa [upsertAskLevels] using hz
  | cons y ys ih =>
    obtain ⟨q, t⟩ := y
    by_cases h1 : q = price
    · simp only [upsertAskLevels, h1, if_true] at hz
      rcases List.mem_cons.mp hz with rfl | hz
      · exact .inl rfl
      · exact .inr (List.mem_cons_of_mem _ hz)
    · by_cases h2 : q > price
      · simp only [upsertAskLevels, h1, h2, if_true, if_false] at hz
        rcases List.mem_cons.mp hz with rfl | hz
        · exact .inl rfl
        · exact .inr hz
      · simp only [upsertAskLevels, h1, h2, if_false] at hz
        rcases List.mem_cons.mp hz with rfl | hz
        · exact .inr (List.mem_cons_self _ _)
        · rcases ih hz with h | h
          · exact .inl h
          · exact .inr (List.mem_cons_of_mem _ h)

theorem upsertBidLevels_sorted (price size : ℚ) (l : List (ℚ × ℚ))
    (h : strictDescByPrice l) : strictDescByPrice (upsertBidLevels price size l) := by
  induction l with
  | nil => simp [upsertBidLevels, strictDescByPrice]
  | cons y ys ih =>
    obtain ⟨q, t⟩ := y
    rcases List.pairwise_cons.mp h with ⟨hq, hys⟩
    by_cases h1 : q = price
    · simp only [upsertBidLevels, h1, if_true]
      refine List.Pairwise.cons ?_ hys
      intro z hz
      simpa [← h1] using hq z hz
    · by_cases h2 : q < price
      · simp only [upsertBidLevels, h1, h2, if_true, if_false]
        refine List.Pairwise.cons ?_ h
        intro z hz
        rcases List.mem_cons.mp hz with rfl | hz
        · exact h2
        · exact lt_trans (hq z hz) h2
      · have h3 : price < q := lt_of_le_of_ne (not_lt.mp h2) (Ne.symm h1)
        simp only [upsertBidLevels, h1, h2, if_false]
        refine List.Pairwise.cons ?_ (ih hys)
        intro z hz
        rcases mem_upsertBidLevels price size ys z hz with rfl | hz
        · exact h3
        · exact hq z hz

theorem upsertAskLevels_sorted (price size : ℚ) (l : List (ℚ × ℚ))
    (h : strictAscByPrice l) : strictAscByPrice (upsertAskLevels price size l) := by
  induction l with
  | nil => simp [upsertAskLevels, strictAscByPrice]
  | cons y ys ih =>
    obtain ⟨q, t⟩ := y
    rcases List.pairwise_cons.mp h with ⟨hq, hys⟩
    by_cases h1 : q = price
    · simp only [upsertAskLevels, h1, if_true]
      refine List.Pairwise.cons ?_ hys
      intro z hz
      simpa [← h1] using hq z hz
    · by_cases h2 : q > price
      · simp only [upsertAskLevels, h1, h2, if_true, if_false]
        refine List.Pairwise.cons ?_ h
        intro z hz
        rcases List.mem_cons.mp hz with rfl | hz
        · exact h2
        · exact lt_trans h2 (hq z hz)
      · have h3 : q < price := lt_of_le_of_ne (not_lt.mp h2) h1
        simp only [upsertAskLevels, h1, h2, if_false]
        refine List.Pairwise.cons ?_ (ih hys)
        intro z hz
        rcases mem_upsertAskLevels price size ys z hz with rfl | hz
        · exact h3
        · exact hq z hz

theorem upsert_bid_inv (ob : OrderBook) (price size : ℚ) (h : ob.Inv) :
    (ob.upsert_bid price size).Inv := by
  obtain ⟨hbd, had, hbp, hap⟩ := h
  simp only [OrderBook.Inv, OrderBook.upsert_bid]
  by_cases hs : size ≤ 0
  · rw [if_pos hs]
    refine ⟨List.Pairwise.sublist (List.filter_sublist _) hbd, had, ?_, hap⟩
    intro l hl
    exact hbp l (List.mem_of_mem_filter hl)
  · rw [if_neg hs]
    refine ⟨upsertBidLevels_sorted price size ob.bids hbd, had, ?_, hap⟩
    intro l hl
    rcases mem_upsertBidLevels price size ob.bids l hl with rfl | hl
    · exact lt_of_not_le hs
    · exact hbp l hl

theorem upsert_ask_inv (ob : OrderBook) (price size : ℚ) (h : ob.Inv) :
    (ob.upsert_ask price size).Inv := by
  obtain ⟨hbd, had, hbp, hap⟩ := h
  simp only [OrderBook.Inv, OrderBook.upsert_ask]
  by_cases hs : size ≤ 0
  · rw [if_pos hs]
    refine ⟨hbd, List.Pairwise.sublist (List.filter_sublist _) had, hbp, ?_⟩
    intro l hl
    exact hap l (List.mem_of_mem_filter hl)
  · rw [if_neg hs]
    refine ⟨hbd, upsertAskLevels_sorted price size ob.asks had, hbp, ?_⟩
    intro l hl
    rcases mem_upsertAskLevels price size ob.asks l hl with rfl | hl
    · exact lt_of_not_le hs
    · exact hap l hl

theorem applyUpserts_inv (ops : List UpsertOp) :
    ∀ ob : OrderBook, ob.Inv → (ob.applyUpserts ops).Inv := by
  induction ops with
  | nil => intro ob h; exact h
  | cons op ops ih =>
    intro ob h
    cases op with
    | bid p s => exact ih _ (upsert_bid_inv ob p s h)
    | ask p s => exact ih _ (upsert_ask_inv ob p s h)

/-- C2 is refuted on the full-side replace path: one replace message with
a duplicated price (one occurrence of size `0`) yields bids that are
neither strictly descending nor all of positive size. -/
theorem C2_counterexample :
    c2book.bids = [(1/2, 0), (1/2, 2)] ∧
      ¬ strictDescByPrice c2book.bids ∧ ¬ allPosSize c2book.bids := by
  refine ⟨by with_unfolding_all decide, ?_, ?_⟩
  · show ¬ List.Pairwise _ _
    with_unfolding_all decide
  · show ¬ ∀ l ∈ c2book.bids, (0 : ℚ) < l.2
    with_unfolding_all decide

/-- C2 (amended): every sequence of per-level upserts applied to an
initially empty book preserves the full invariant (bids strictly
descending, asks strictly ascending, no duplicate prices, every size
positive), while the full-side replace path guarantees only weak
sortedness (bids non-strictly descending, asks non-strictly ascending) —
duplicate prices and non-positive sizes from the message are retained. -/
theorem C2_book_invariants :
    (∀ (aid : String) (ops : List UpsertOp),
      (OrderBook.applyUpserts { asset_id := aid } ops).Inv) ∧
    (∀ (ob : OrderBook) (msg : Msg),
      List.Pairwise (fun a b : ℚ × ℚ => b.1 ≤ a.1) (ob.update_from_book_message msg).bids ∧
      List.Pairwise (fun a b : ℚ × ℚ => a.1 ≤ b.1) (ob.update_from_book_message msg).asks) := by
  constructor
  · intro aid ops
    refine applyUpserts_inv ops _ ⟨?_, ?_, ?_, ?_⟩ <;> simp [strictDescByPrice, strictAscByPrice, allPosSize]
  · intro ob msg
    exact ⟨sortBidsDesc_sorted _, sortAsksAsc_sorted _⟩

/-- C1 is refuted on the full-side replace path: after the spec's
two-message scenario the size-0 level is retained, so the bids are not
empty and the level at the existing price was not removed. -/
theorem C1_counterexample : c1book.bids = [(2/5, 0)] ∧ c1book.bids ≠ [] := by
  with_unfolding_all decide

/-- C1 (amended): the remove-on-nonpositive-size semantics holds for the
per-level upsert path only. With `size ≤ 0`, `_upsert_bid` removes
exactly the level(s) at `price` from the bids (a no-op when the price is
absent) and leaves the asks unchanged; symmetrically for `_upsert_ask`.
The full-side replace path instead keeps levels verbatim, as the
counterexample shows. -/
theorem C1_upsert_semantics (ob : OrderBook) (price size : ℚ) (h : size ≤ 0) :
    (ob.upsert_bid price size).bids = ob.bids.filter (fun l => decide (l.1 ≠ price)) ∧
    (ob.upsert_bid price size).asks = ob.asks ∧
    ((∀ l ∈ ob.bids, l.1 ≠ price) → (ob.upsert_bid price size).bids = ob.bids) ∧
    (∀ l ∈ (ob.upsert_bid price size).bids, l.1 ≠ price) ∧
    (ob.upsert_ask price size).asks = ob.asks.filter (fun l => decide (l.1 ≠ price)) ∧
    (ob.upsert_ask price size).bids = ob.bids ∧
    ((∀ l ∈ ob.asks, l.1 ≠ price) → (ob.upsert_ask price size).asks = ob.asks) ∧
    (∀ l ∈ (ob.upsert_ask price size).asks, l.1 ≠ price) := by
  have hb : (ob.upsert_bid price size).bids = ob.bids.filter (fun l => decide (l.1 ≠ price)) := by
    simp only [OrderBook.upsert_bid, if_pos h]
  have hba : (ob.upsert_bid price size).asks = ob.asks := by
    simp only [OrderBook.upsert_bid, if_pos h]
  have ha : (ob.upsert_ask price size).asks = ob.asks.filter (fun l => decide (l.1 ≠ price)) := by
    simp only [OrderBook.upsert_ask, if_pos h]
  have hab : (ob.upsert_ask price size).bids = ob.bids := by
    simp only [OrderBook.upsert_ask, if_pos h]
  refine ⟨hb, hba, ?_, ?_, ha, hab, ?_, ?_⟩
  · intro hnone
    rw [hb]
    exact List.filter_eq_self.mpr (fun l hl => decide_eq_true (hnone l hl))
  · intro l hl
    rw [hb] at hl
    exact of_decide_eq_true (List.mem_filter.mp hl).2
  · intro hnone
    rw [ha]
    exact List.filter_eq_self.mpr (fun l hl => decide_eq_true (hnone l hl))
  · intro l hl
    rw [ha] at hl
    exact of_decide_eq_true (List.mem_filter.mp hl).2

/-- Witness for the amended C1 at a concrete book: removing at an
existing price with size 0 empties the single-level bid side. -/
theorem C1_witness : (c1bookW.upsert_bid (1/2) 0).bids = [] := by
  have h := (C1_upsert_semantics c1bookW (1/2) 0 (by norm_num)).1
  rw [h]
  with_unfolding_all decide

/-! Helper lemmas about the order-submission step. -/

theorem on_new_book_order_size {π : Type} (client : Bool) (ya na : String)
    (positions : List π) (d : IOCDecision) (o : Order)
    (h : on_new_book_order client ya na positions d = some o) : o.size = d.size := by
  unfold on_new_book_order at h
  split at h
  · split at h
    · exact absurd h (by simp)
    · cases h
      rfl
  · exact absurd h (by simp)

theorem on_new_book_order_hold {π : Type} (client : Bool) (ya na : String)
    (positions : List π) (d : IOCDecision) (h : d.action = "hold") :
    on_new_book_order client ya na positions d = none := by
  unfold on_new_book_order
  rw [if_neg]
  rintro ⟨-, hne, -⟩
  exact hne h

theorem on_new_book_order_nonpos {π : Type} (client : Bool) (ya na : String)
    (positions : List π) (d : IOCDecision) (h : d.size ≤ 0) :
    on_new_book_order client ya na positions d = none := by
  unfold on_new_book_order
  rw [if_neg]
  rintro ⟨-, -, hpos⟩
  exact absurd hpos (not_lt.mpr h)

theorem on_new_book_order_sell_flat {π : Type} (client : Bool) (ya na : String)
    (d : IOCDecision) (h : d.action = "sell") :
    on_new_book_order client ya na ([] : List π) d = none := by
  unfold on_new_book_order
  split
  · rw [if_pos ⟨h, rfl⟩]
  · rfl

/-- C3: the decision loop never forwards an order whose size exceeds
`min(max_size, max_position)`; a `hold` decision and a decision whose
clamped size is `0` submit nothing; and a `sell` decision while the
tracked positions list is empty is skipped. -/
theorem C3_decision_caps {π : Type} (client : Bool) (ya na : String) (positions : List π)
    (max_size max_position : ℚ) (parsed : ParsedDecision) :
    (∀ o : Order,
      on_new_book_order client ya na positions
          (produce_trading_decision max_size max_position parsed) = some o →
        o.size ≤ min max_size max_position) ∧
    (parsed.action.toLower = "hold" →
      on_new_book_order client ya na positions
          (produce_trading_decision max_size max_position parsed) = none) ∧
    ((produce_trading_decision max_size max_position parsed).size = 0 →
      on_new_book_order client ya na positions
          (produce_trading_decision max_size max_position parsed) = none) ∧
    ((produce_trading_decision max_size max_position parsed).action = "sell" →
      positions = [] →
      on_new_book_order client ya na positions
          (produce_trading_decision max_size max_position parsed) = none) := by
  refine ⟨?_, ?_, ?_, ?_⟩
  · intro o ho
    have hs := on_new_book_order_size client ya na positions _ o ho
    rw [hs]
    by_cases hh : parsed.action.toLower = "hold"
    · rw [on_new_book_order_hold client ya na positions _ (by simp [produce_trading_decision, hh])] at ho
      cases ho
    · have : (produce_trading_decision max_size max_position parsed).size =
          min parsed.size (min max_size max_position) := by
        simp [produce_trading_decision, hh]
      rw [this]
      exact le_trans (min_le_right _ _) (le_refl _)
  · intro hh
    exact on_new_book_order_hold client ya na positions _ (by simp [produce_trading_decision, hh])
  · intro h0
    exact on_new_book_order_nonpos client ya na positions _ (le_of_eq h0)
  · intro hsell hpos
    subst hpos
    exact on_new_book_order_sell_flat client ya na _ hsell

/-- Witness for C3: a `hold` decision (upper-case in the model output)
submits no order. -/
theorem C3_witness :
    on_new_book_order true "Y" "N" ([] : List Unit)
      (produce_trading_decision 5 4 ⟨"HOLD", "YES", 1/2, 3⟩) = none :=
  (C3_decision_caps true "Y" "N" ([] : List Unit) 5 4 ⟨"HOLD", "YES", 1/2, 3⟩).2.1
    (by with_unfolding_all decide)

/-- C4 diverges from the code: after 11 posts with distinct ids 1..11 the
window holds only 9 tweets (ids 3..11) — both the deque bound and the
manual eviction loop evicted one tweet each — and id 1 is still marked
seen although its tweet left the window. -/
theorem C4_window_eviction_bug :
    c4final.tweets.length = 9 ∧
    c4final.tweets.map Tweet.tweet_id =
      [some 3, some 4, some 5, some 6, some 7, some 8, some 9, some 10, some 11] ∧
    some 1 ∈ c4final.tweet_ids ∧ some 2 ∉ c4final.tweet_ids := by
  with_unfolding_all decide

/-- C5: replaying the two synthetic trades through the buy-10-then-sell-5
strategy yields cash `-2`, yes position `5`, unrealized PnL `3` and total
PnL `1`. -/
theorem C5_replay_scenario :
    c5sim.cash = -2 ∧ c5sim.pos_yes = 5 ∧ c5sim.unrealized = 3 ∧ c5sim.totalPnl = 1 := by
  with_unfolding_all decide

/-! Helper lemmas for the frame effect of `apply_actions`. -/

theorem applyOneAction_skip (price_yes price_no : Option ℚ) (ts : Option Int)
    (sim : Simulator) (a : ActionIntent)
    (h : (intentSide a ≠ "yes" ∧ intentSide a ≠ "no") ∨
      (intentDirection a ≠ "buy" ∧ intentDirection a ≠ "sell") ∨
      intentSize a ≤ 0 ∨
      (if intentSide a = "yes" then price_yes else price_no) = none) :
    applyOneAction price_yes price_no ts sim a = sim := by
  simp only [applyOneAction]
  by_cases hc : (intentSide a ≠ "yes" ∧ intentSide a ≠ "no") ∨
      (intentDirection a ≠ "buy" ∧ intentDirection a ≠ "sell") ∨ intentSize a ≤ 0
  · rw [if_pos hc]
  · rw [if_neg hc]
    have hn : (if intentSide a = "yes" then price_yes else price_no) = none := by tauto
    rw [hn]

theorem foldl_applyOneAction_skip (price_yes price_no : Option ℚ) (ts : Option Int) :
    ∀ (actions : List ActionIntent) (sim : Simulator),
      (∀ a ∈ actions,
        (intentSide a ≠ "yes" ∧ intentSide a ≠ "no") ∨
        (intentDirection a ≠ "buy" ∧ intentDirection a ≠ "sell") ∨
        intentSize a ≤ 0 ∨
        (if intentSide a = "yes" then price_yes else price_no) = none) →
      actions.foldl (applyOneAction price_yes price_no ts) sim = sim := by
  intro actions
  induction actions with
  | nil => intro sim _; rfl
  | cons a as ih =>
    intro sim h
    rw [List.foldl_cons,
      applyOneAction_skip price_yes price_no ts sim a (h a (List.mem_cons_self a as))]
    exact ih sim (fun b hb => h b (List.mem_cons_of_mem a hb))

/-- C9: when every intent passed to `apply_actions` is invalid or its
side has no resolvable top price, `cash`, positions and the trade ledger
are unchanged, while the last seen prices are still refreshed from the
books whenever those books resolve a top price. -/
theorem C9_apply_actions_frame (sim : Simulator) (actions : List ActionIntent)
    (yb nb : Option Book)
    (h : ∀ a ∈ actions, intentInvalidOrPriceless yb nb a) :
    (sim.apply_actions actions yb nb).cash = sim.cash ∧
    (sim.apply_actions actions yb nb).pos_yes = sim.pos_yes ∧
    (sim.apply_actions actions yb nb).pos_no = sim.pos_no ∧
    (sim.apply_actions actions yb nb).trades = sim.trades ∧
    (top_price yb = none →
      (sim.apply_actions actions yb nb).last_price_yes = sim.last_price_yes) ∧
    (∀ p, top_price yb = some p →
      (sim.apply_actions actions yb nb).last_price_yes = some p) ∧
    (top_price nb = none →
      (sim.apply_actions actions yb nb).last_price_no = sim.last_price_no) ∧
    (∀ p, top_price nb = some p →
      (sim.apply_actions actions yb nb).last_price_no = some p) := by
  have hfold : actions.foldl (applyOneAction (top_price yb) (top_price nb) (top_ts yb nb)) sim
      = sim :=
    foldl_applyOneAction_skip (top_price yb) (top_price nb) (top_ts yb nb) actions sim h
  cases hy : top_price yb <;> cases hn : top_price nb <;>
    simp_all [Simulator.apply_actions, hfold, hy, hn]

/-- Witness for C9: a single bogus-side intent leaves cash, positions and
trades unchanged while the yes-side last price is refreshed. -/
theorem C9_witness :
    (c9sim.apply_actions [c9intent] (some c9yesBook) none).cash = c9sim.cash ∧
    (c9sim.apply_actions [c9intent] (some c9yesBook) none).trades = c9sim.trades ∧
    (c9sim.apply_actions [c9intent] (some c9yesBook) none).last_price_yes = some (9/20) := by
  have h := C9_apply_actions_frame c9sim [c9intent] (some c9yesBook) none
    (by
      intro a ha
      rw [List.mem_singleton.mp ha]
      exact Or.inl ⟨by with_unfolding_all decide, by with_unfolding_all decide⟩)
  exact ⟨h.1, h.2.2.2.1, h.2.2.2.2.2.1 (9/20) (by with_unfolding_all rfl)⟩

/-- C10: a message lacking a truthy timestamp leaves the stored
timestamp unchanged (whatever its hash carries), and a message lacking a
truthy hash leaves the stored hash unchanged (whatever its timestamp
carries); bids and asks are still replaced purely from the message
(independent of the previous book); and
`OrderBook.update_from_book_message` instead overwrites timestamp and
hash with the message's (possibly absent) values unconditionally. -/
theorem C10_metadata_frame (b b2 : Book) (ob : OrderBook) (msg : Msg) :
    (truthyStr msg.timestamp = false →
      (b.update_from_message msg).timestamp = b.timestamp) ∧
    (truthyStr msg.hash = false →
      (b.update_from_message msg).hash = b.hash) ∧
    (b.update_from_message msg).bids = (b2.update_from_message msg).bids ∧
    (b.update_from_message msg).asks = (b2.update_from_message msg).asks ∧
    (ob.update_from_book_message msg).timestamp = msg.timestamp ∧
    (ob.update_from_book_message msg).hash = msg.hash := by
  refine ⟨?_, ?_, rfl, rfl, rfl, rfl⟩
  · intro ht
    simp [Book.update_from_message, ht]
  · intro hh
    simp [Book.update_from_message, hh]

/-- Witness for C10 on two complementary messages: one with a falsy
timestamp but truthy hash (the timestamp is kept anyway), one with a
truthy timestamp but falsy hash (the hash is kept anyway), plus the
unconditional overwrite on the feed-side book. -/
theorem C10_witness :
    (truthyStr c10msgB.timestamp = false ∧
      (c10book.update_from_message c10msgB).timestamp = c10book.timestamp) ∧
    (truthyStr c10msgC.hash = false ∧
      (c10book.update_from_message c10msgC).hash = c10book.hash) ∧
    (c10orderbook.update_from_book_message c10msg).timestamp = c10msg.timestamp ∧
    (c10orderbook.update_from_book_message c10msg).hash = c10msg.hash :=
  ⟨⟨rfl, (C10_metadata_frame c10book {} c10orderbook c10msgB).1 rfl⟩,
    ⟨rfl, (C10_metadata_frame c10book {} c10orderbook c10msgC).2.1 rfl⟩,
    (C10_metadata_frame c10book {} c10orderbook c10msg).2.2.2.2.1,
    (C10_metadata_frame c10book {} c10orderbook c10msg).2.2.2.2.2⟩

/-! Helper lemmas for the max-drawdown replay. -/

theorem foldl_mdStep_max_dd (trs : List TradeLogEntry) :
    ∀ (m : MarkState) (p d : ℚ),
      (trs.foldl mdStep (m, p, d)).2.2 = ddFold p d (equityCurveFrom m trs) := by
  induction trs with
  | nil => intro m p d; rfl
  | cons tr trs ih =>
    intro m p d
    rw [List.foldl_cons, equityCurveFrom, ddFold]
    exact ih (mdTrade m tr) _ _

theorem le_ddFold (es : List ℚ) : ∀ p d : ℚ, d ≤ ddFold p d es := by
  induction es with
  | nil => intro p d; exact le_refl d
  | cons e es ih =>
    intro p d
    rw [ddFold]
    exact le_trans (le_max_left d _) (ih _ _)

theorem ddFold_of_nondecreasing (es : List ℚ) :
    ∀ p d : ℚ, List.Pairwise (fun a b : ℚ => a ≤ b) es →
      (∀ e ∈ es.head?, p ≤ e) → 0 ≤ d → ddFold p d es = d := by
  induction es with
  | nil => intro p d _ _ _; rfl
  | cons e es ih =>
    intro p d hp hh hd
    rcases List.pairwise_cons.mp hp with ⟨he, hes⟩
    have hpe : p ≤ e := hh e rfl
    rw [ddFold, max_eq_right hpe, sub_self, max_eq_left hd]
    exact ih e d hes (fun e2 he2 => he e2 (List.mem_of_mem_head? he2)) hd

theorem ddFold_ge_sub_peak (es : List ℚ) :
    ∀ (p d : ℚ) (j : ℕ) (hj : j < es.length), p - es.get ⟨j, hj⟩ ≤ ddFold p d es := by
  induction es with
  | nil => intro p d j hj; exact absurd hj (Nat.not_lt_zero j)
  | cons e es ih =>
    intro p d j hj
    rw [ddFold]
    cases j with
    | zero =>
      show p - e ≤ _
      refine le_trans (sub_le_sub_right (le_max_left p e) e) ?_
      exact le_trans (le_max_right d _) (le_ddFold es _ _)
    | succ j =>
      show p - es.get ⟨j, _⟩ ≤ _
      exact le_trans (sub_le_sub_right (le_max_left p e) _) (ih (max p e) _ j _)

theorem ddFold_ge_diff (es : List ℚ) :
    ∀ (p d : ℚ) (i j : ℕ) (hi : i < es.length) (hj : j < es.length), i ≤ j →
      es.get ⟨i, hi⟩ - es.get ⟨j, hj⟩ ≤ ddFold p d es := by
  induction es with
  | nil => intro p d i j hi; exact absurd hi (Nat.not_lt_zero i)
  | cons e es ih =>
    intro p d i j hi hj hij
    rw [ddFold]
    cases i with
    | zero =>
      cases j with
      | zero =>
        show e - e ≤ _
        rw [sub_self]
        have h0 : (0 : ℚ) ≤ max p e - e := by
          have := le_max_right p e
          linarith
        exact le_trans h0 (le_trans (le_max_right d _) (le_ddFold es _ _))
      | succ j =>
        show e - es.get ⟨j, _⟩ ≤ _
        refine le_trans (sub_le_sub_right (le_max_right p e) _) ?_
        exact ddFold_ge_sub_peak es (max p e) _ j _
    | succ i =>
      cases j with
      | zero => exact absurd hij (by omega)
      | succ j =>
        show es.get ⟨i, _⟩ - es.get ⟨j, _⟩ ≤ _
        exact ih _ _ i j _ _ (Nat.le_of_succ_le_succ hij)

theorem ddFold_attained (es : List ℚ) :
    ∀ p d : ℚ, ddFold p d es = d ∨
      (∃ j, ∃ hj : j < es.length, ddFold p d es = p - es.get ⟨j, hj⟩) ∨
      (∃ i j, ∃ hi : i < es.length, ∃ hj : j < es.length,
        i ≤ j ∧ ddFold p d es = es.get ⟨i, hi⟩ - es.get ⟨j, hj⟩) := by
  induction es with
  | nil => intro p d; exact Or.inl rfl
  | cons e es ih =>
    intro p d
    rw [ddFold]
    rcases ih (max p e) (max d (max p e - e)) with h | h | h
    · rcases max_choice d (max p e - e) with h2 | h2
      · exact Or.inl (h.trans h2)
      · rcases max_choice p e with h3 | h3
        · refine Or.inr (Or.inl ⟨0, Nat.succ_pos _, ?_⟩)
          show _ = p - e
          rw [h, h2, h3]
        · refine Or.inr (Or.inr ⟨0, 0, Nat.succ_pos _, Nat.succ_pos _, le_refl 0, ?_⟩)
          show _ = e - e
          rw [h, h2, h3]
    · rcases h with ⟨j, hj, h⟩
      rcases max_choice p e with h3 | h3
      · refine Or.inr (Or.inl ⟨j + 1, Nat.succ_lt_succ hj, ?_⟩)
        show _ = p - es.get ⟨j, hj⟩
        rw [h, h3]
      · refine Or.inr (Or.inr ⟨0, j + 1, Nat.succ_pos _, Nat.succ_lt_succ hj,
          Nat.zero_le _, ?_⟩)
        show _ = e - es.get ⟨j, hj⟩
        rw [h, h3]
    · rcases h with ⟨i, j, hi, hj, hij, h⟩
      exact Or.inr (Or.inr ⟨i + 1, j + 1, Nat.succ_lt_succ hi, Nat.succ_lt_succ hj,
        Nat.succ_le_succ hij, h⟩)

theorem equityCurveFrom_length (trs : List TradeLogEntry) :
    ∀ m : MarkState, (equityCurveFrom m trs).length = trs.length := by
  induction trs with
  | nil => intro m; rfl
  | cons tr trs ih =>
    intro m
    rw [equityCurveFrom, List.length_cons, List.length_cons, ih]

theorem mdEquity_first (ly ln : Option ℚ) (tr : TradeLogEntry)
    (h : tr.notional = tr.price * tr.size) :
    mdEquity (mdTrade ⟨ly, ln, 0, 0, 0⟩ tr) = 0 := by
  unfold mdTrade mdEquity
  split_ifs <;> simp [h]

theorem applyOneAction_notional (py pn : Option ℚ) (ts : Option Int) (sim : Simulator)
    (a : ActionIntent) (h : ∀ tr ∈ sim.trades, tr.notional = tr.price * tr.size) :
    ∀ tr ∈ (applyOneAction py pn ts sim a).trades, tr.notional = tr.price * tr.size := by
  intro tr htr
  unfold applyOneAction at htr
  dsimp only at htr
  split at htr
  · exact h tr htr
  split at htr
  · exact h tr htr
  split at htr <;> split at htr <;>
    (simp only [List.mem_append, List.mem_singleton] at htr
     rcases htr with h1 | h1
     · exact h tr h1
     · subst h1
       rfl)

/-- Every ledger entry `apply_actions` appends carries
`notional = price * size`, justifying the hypothesis of the drawdown
theorem for every reachable simulator state. -/
theorem apply_actions_notional (sim : Simulator) (actions : List ActionIntent)
    (yb nb : Option Book) (h : ∀ tr ∈ sim.trades, tr.notional = tr.price * tr.size) :
    ∀ tr ∈ (sim.apply_actions actions yb nb).trades, tr.notional = tr.price * tr.size := by
  have hfold : ∀ (py pn : Option ℚ) (ts : Option Int) (acts : List ActionIntent) (s : Simulator),
      (∀ tr ∈ s.trades, tr.notional = tr.price * tr.size) →
      ∀ tr ∈ (acts.foldl (applyOneAction py pn ts) s).trades,
        tr.notional = tr.price * tr.size := by
    intro py pn ts acts
    induction acts with
    | nil => intro s hs; exact hs
    | cons a as ih =>
      intro s hs
      rw [List.foldl_cons]
      exact ih _ (applyOneAction_notional _ _ _ s a hs)
  unfold Simulator.apply_actions
  cases hy : top_price yb <;> cases hn : top_price nb <;>
    simp only [hy, hn] <;> intro tr htr <;> exact hfold _ _ _ actions sim h tr (by simpa using htr)

/-- C6: `_max_drawdown` replays the ledger in order; for a ledger whose
entries carry the notional `apply_actions` wrote (`price * size`), a
monotonically non-decreasing recomputed equity curve gives drawdown `0`,
and in general the result is exactly the largest peak-minus-equity
deficit over the curve: an upper bound on every `equity[i] - equity[j]`
with `i ≤ j`, attained at some such pair (and `0` for an empty ledger). -/
theorem C6_max_drawdown (s : Simulator)
    (hwf : ∀ tr ∈ s.trades, tr.notional = tr.price * tr.size) :
    (List.Pairwise (fun a b : ℚ => a ≤ b) s.equityCurve → s.max_drawdown = 0) ∧
    (∀ (i j : ℕ) (hi : i < s.equityCurve.length) (hj : j < s.equityCurve.length), i ≤ j →
      s.equityCurve.get ⟨i, hi⟩ - s.equityCurve.get ⟨j, hj⟩ ≤ s.max_drawdown) ∧
    (s.trades = [] → s.max_drawdown = 0) ∧
    (s.trades ≠ [] →
      ∃ i j, ∃ hi : i < s.equityCurve.length, ∃ hj : j < s.equityCurve.length,
        i ≤ j ∧ s.max_drawdown = s.equityCurve.get ⟨i, hi⟩ - s.equityCurve.get ⟨j, hj⟩) := by
  have hdd : s.max_drawdown = ddFold 0 0 s.equityCurve :=
    foldl_mdStep_max_dd s.trades ⟨s.last_price_yes, s.last_price_no, 0, 0, 0⟩ 0 0
  cases htr : s.trades with
  | nil =>
    have hcurve : s.equityCurve = [] := by
      show equityCurveFrom _ s.trades = []
      rw [htr]
      rfl
    refine ⟨?_, ?_, ?_, ?_⟩
    · intro _
      rw [hdd, hcurve]
      rfl
    · intro i j hi hj hij
      rw [hcurve] at hi
      exact absurd hi (Nat.not_lt_zero i)
    · intro _
      rw [hdd, hcurve]
      rfl
    · intro hne
      exact absurd rfl hne
  | cons tr trs =>
    have hcurve : s.equityCurve =
        mdEquity (mdTrade ⟨s.last_price_yes, s.last_price_no, 0, 0, 0⟩ tr) ::
          equityCurveFrom (mdTrade ⟨s.last_price_yes, s.last_price_no, 0, 0, 0⟩ tr) trs := by
      show equityCurveFrom _ s.trades = _
      rw [htr, equityCurveFrom]
    have he0 : mdEquity (mdTrade ⟨s.last_price_yes, s.last_price_no, 0, 0, 0⟩ tr) = 0 :=
      mdEquity_first _ _ tr (hwf tr (by rw [htr]; exact List.mem_cons_self tr trs))
    refine ⟨?_, ?_, ?_, ?_⟩
    · intro hmono
      rw [hdd]
      refine ddFold_of_nondecreasing s.equityCurve 0 0 hmono ?_ (le_refl 0)
      intro e he
      rw [hcurve] at he
      simp only [List.head?_cons, Option.mem_def, Option.some.injEq] at he
      rw [← he, he0]
    · intro i j hi hj hij
      rw [hdd]
      exact ddFold_ge_diff s.equityCurve 0 0 i j hi hj hij
    · intro h0
      exact (List.cons_ne_nil tr trs h0).elim
    · intro _
      have hlen : 0 < s.equityCurve.length := by
        rw [hcurve]
        exact Nat.succ_pos _
      have hg0 : s.equityCurve.get ⟨0, hlen⟩ = 0 := by
        rw [List.get_of_eq hcurve ⟨0, hlen⟩]
        exact he0
      rw [hdd]
      rcases ddFold_attained s.equityCurve 0 0 with h | h | h
      · exact ⟨0, 0, hlen, hlen, le_refl 0, by rw [h, hg0, sub_self]⟩
      · rcases h with ⟨j, hj, h⟩
        exact ⟨0, j, hlen, hj, Nat.zero_le j, by rw [h, hg0]⟩
      · rcases h with ⟨i, j, hi, hj, hij, h⟩
        exact ⟨i, j, hi, hj, hij, h⟩

/-- Witness for C6: a two-trade ledger whose recomputed equity curve is
the non-decreasing `[0, 1]` has drawdown `0`. -/
theorem C6_witness : c6simW.max_drawdown = 0 :=
  (C6_max_drawdown c6simW (by with_unfolding_all decide)).1
    (by
      have h : c6simW.equityCurve = [0, 1] := by with_unfolding_all decide
      rw [h]
      simp)

/-- C7 is refuted on the feed path: a book message whose strategy
callback raises makes `PolymarketFeed._handle_book_message` propagate the
exception to the reader loop instead of returning normally. -/
theorem C7_counterexample :
    feed_handle_book_message (ε := String) {} boomCallback c7msg = .error "boom" := by
  with_unfolding_all rfl

/-- C7 (amended): the callback runs after the locked mutation in both
handlers, but only `Polymarket._handle_book` catches its exceptions — it
returns normally for every message and callback; the feed-side
`PolymarketFeed._handle_book_message` propagates a callback error to the
reader loop on every dispatched book message. -/
theorem C7_callback_handling {ε : Type} :
    (∀ (st : PMBooks) (strat : Option Book → Option Book → Except ε Unit) (msg : Msg),
      ∃ st1, pm_handle_book st strat msg = .ok st1) ∧
    (∀ (fb : FeedBooks) (cb : String → OrderBook → Except ε Unit) (e : ε) (msg : Msg)
      (aid : String), msg.event_type = some "book" → msg.asset_id = some aid →
      aid.isEmpty = false → (∀ a ob, cb a ob = .error e) →
      feed_handle_book_message fb cb msg = .error e) := by
  constructor
  · intro st strat msg
    unfold pm_handle_book
    split
    · exact ⟨st, rfl⟩
    split
    · exact ⟨st, rfl⟩
    split
    · exact ⟨st, rfl⟩
    dsimp only
    split <;> split <;> exact ⟨_, rfl⟩
  · intro fb cb e msg aid hbook hasset hne hcb
    unfold feed_handle_book_message
    rw [if_neg (by rw [hbook]; simp), hasset]
    simp only [hne, Bool.false_eq_true, if_false, hcb]

/-- Witness for the amended C7 at a concrete message and raising
callback. -/
theorem C7_witness :
    (∃ st1, pm_handle_book (ε := String) {} boomStrategy c7msg = .ok st1) ∧
    feed_handle_book_message (ε := String) {} boomCallback c7msg = .error "boom" :=
  ⟨(C7_callback_handling (ε := String)).1 {} boomStrategy c7msg,
    (C7_callback_handling (ε := String)).2 {} boomCallback "boom" c7msg "A" rfl rfl rfl
      (fun _ _ => rfl)⟩

/-! Helper lemmas for `subscribe_market`. -/

theorem subscribe_market_absent (fetchFn : String → List (String × List (String × String)))
    (st : FeedTopology) (slug ev : String)
    (h1 : alGet slug (fetchFn ev) = none) (h2 : alGet slug st.market_tokens = none) :
    subscribe_market fetchFn st slug (some ev) = .error (.slugNotFound slug) := by
  unfold subscribe_market
  have hm : (subscribe_event fetchFn ev).market_tokens = fetchFn ev := rfl
  by_cases he : st.market_tokens.isEmpty
  · simp [he, hm, h1]
  · simp [he, hm, h1, h2]

theorem subscribe_market_ok_shape (fetchFn : String → List (String × List (String × String)))
    (st : FeedTopology) (slug ev : String) :
    ∀ st1, subscribe_market fetchFn st slug (some ev) = .ok st1 →
      ∃ sides,
        (alGet slug st.market_tokens = some sides ∨ alGet slug (fetchFn ev) = some sides) ∧
        st1 = narrowTo slug sides := by
  intro st1 h
  unfold subscribe_market at h
  have hm : (subscribe_event fetchFn ev).market_tokens = fetchFn ev := rfl
  by_cases he : st.market_tokens.isEmpty
  · cases hf : alGet slug (fetchFn ev) with
    | none => simp [he, hm, hf] at h
    | some sd =>
      simp [he, hm, hf] at h
      exact ⟨sd, Or.inr rfl, h.symm⟩
  · cases hc : alGet slug st.market_tokens with
    | none =>
      cases hf : alGet slug (fetchFn ev) with
      | none => simp [he, hm, hc, hf] at h
      | some sd =>
        simp [he, hm, hc, hf] at h
        exact ⟨sd, Or.inr rfl, h.symm⟩
    | some sd =>
      simp [he, hc] at h
      exact ⟨sd, Or.inl rfl, h.symm⟩

theorem subscribe_market_narrow_fixed (fetchFn : String → List (String × List (String × String)))
    (slug ev : String) (sides : List (String × String)) :
    subscribe_market fetchFn (narrowTo slug sides) slug (some ev) = .ok (narrowTo slug sides) := by
  unfold subscribe_market
  have hne : (narrowTo slug sides).market_tokens.isEmpty = false := rfl
  have hget : alGet slug (narrowTo slug sides).market_tokens = some sides := by
    show alGet slug [(slug, sides)] = some sides
    simp [alGet]
  simp [hne, hget]

/-- C8: `subscribe_market` fails with a not-found error naming the slug
whenever the slug is absent from the current and the (re)fetched event
topology; a successful call narrows the topology to exactly the
requested market's side-token entries; and repeating a successful call
(against the same fetched mapping) returns the same state — no duplicate
registrations. -/
theorem C8_subscribe_market (fetchFn : String → List (String × List (String × String)))
    (st : FeedTopology) (slug ev : String) :
    (alGet slug (fetchFn ev) = none → alGet slug st.market_tokens = none →
      subscribe_market fetchFn st slug (some ev) = .error (.slugNotFound slug)) ∧
    (∀ st1, subscribe_market fetchFn st slug (some ev) = .ok st1 →
      ∃ sides,
        (alGet slug st.market_tokens = some sides ∨ alGet slug (fetchFn ev) = some sides) ∧
        st1.market_tokens = [(slug, sides)] ∧
        st1.token_lookup = sides.map (fun sd => (sd.2, slug, sd.1)) ∧
        st1.asset_ids = sides.map (fun sd => sd.2)) ∧
    (∀ st1, subscribe_market fetchFn st slug (some ev) = .ok st1 →
      subscribe_market fetchFn st1 slug (some ev) = .ok st1) := by
  refine ⟨subscribe_market_absent fetchFn st slug ev, ?_, ?_⟩
  · intro st1 h
    rcases subscribe_market_ok_shape fetchFn st slug ev st1 h with ⟨sides, hsrc, hst⟩
    subst hst
    exact ⟨sides, hsrc, rfl, rfl, rfl⟩
  · intro st1 h
    rcases subscribe_market_ok_shape fetchFn st slug ev st1 h with ⟨sides, -, hst⟩
    subst hst
    exact subscribe_market_narrow_fixed fetchFn slug ev sides

/-- Witness for C8 with a one-market fetched topology: a missing slug
fails with the not-found error, and resolving `m1` from the empty state
succeeds and is idempotent. -/
theorem C8_witness :
    subscribe_market c8fetch {} "nope" (some "e") = .error (.slugNotFound "nope") ∧
    subscribe_market c8fetch (narrowTo "m1" c8sides) "m1" (some "e") =
      .ok (narrowTo "m1" c8sides) :=
  ⟨(C8_subscribe_market c8fetch {} "nope" "e").1 rfl rfl,
    (C8_subscribe_market c8fetch (narrowTo "m1" c8sides) "m1" "e").2.2 (narrowTo "m1" c8sides)
      (by with_unfolding_all rfl)⟩

end GrokTrader
